import Mathlib

/-!
Verification development for the file-chunker engine in `src/main.py`
(version 1.3.0).  The core logic embedded here is:

* `ChunkConfig.postInit`  — the `ChunkConfig.__post_init__` validation
  (main.py lines 63-74);
* `GenericBinaryChunker.split` — the byte-oriented splitting loop
  (main.py lines 97-128), modelled over the source file's content as a
  `List Nat` of bytes;
* `FileChunker.makeChunkName` and the `pathlib`-style path model
  (`PyPath`) — `FileChunker._make_chunk_name` (main.py lines 85-89) and
  the `dst_dir / name` join at line 115;
* `PdfFileChunker.split` — the page-grouping loop (main.py lines
  136-176), modelled over the document's pages as a `List Nat` of page
  identifiers;
* `estimate_chunks` — the preview arithmetic (main.py lines 189-198),
  modelled as the estimated chunk count (the human-readable description
  string is not modelled).

File-system effects (opening files, creating directories, writability
checks) are elided; the embedding works over the byte/page content and
the computed output paths.  Python's unbounded integers are modelled by
`Int` in the configuration and by `Nat` for sizes and indices; on the
domain reachable through a validated configuration every operand of the
divisions is non-negative, so the translation is exact there.
-/

namespace FileChunkerApp

/-- Python's `(a + b - 1) // b` ceiling-division idiom, exactly as it
appears at main.py lines 107, 110, 149 and 196 (all uses have `b ≥ 1`
on the reachable domain). -/
def cdiv (a b : Nat) : Nat := (a + b - 1) / b

/-- The `ChunkConfig` dataclass (main.py lines 63-66): two optional
integer fields, `bytes_per_chunk` and `number_of_chunks`. -/
structure ChunkConfig where
  bytes_per_chunk : Option Int := none
  number_of_chunks : Option Int := none
deriving DecidableEq, Repr

/-- The guard `bytes_per_chunk is not None and bytes_per_chunk <= 1024`
from main.py line 71. -/
def sizeTooSmall : Option Int → Bool
  | some b => b ≤ 1024
  | none => false

/-- The guard `number_of_chunks is not None and number_of_chunks < 1`
from main.py line 73. -/
def countTooSmall : Option Int → Bool
  | some n => n < 1
  | none => false

/-- `ChunkConfig.__post_init__` (main.py lines 68-74): raising
`ValueError` is modelled as returning `.error` with the source's
message; a configuration object exists exactly when this returns
`.ok`. -/
def ChunkConfig.postInit (bpc noc : Option Int) : Except String ChunkConfig :=
  if bpc = none ∧ noc = none then
    .error "Must specify either bytes_per_chunk or number_of_chunks"
  else if sizeTooSmall bpc then
    .error "Chunk size must be > 1KB"
  else if countTooSmall noc then
    .error "Number of parts must be >= 1"
  else
    .ok ⟨bpc, noc⟩

/-- A configuration is valid when `__post_init__` accepts exactly its
own fields, i.e. when the object can exist at all. -/
def ChunkConfig.Valid (cfg : ChunkConfig) : Prop :=
  (ChunkConfig.postInit cfg.bytes_per_chunk cfg.number_of_chunks).toOption = some cfg

instance (cfg : ChunkConfig) : Decidable cfg.Valid := by
  unfold ChunkConfig.Valid; infer_instance

/-- The plan arithmetic at main.py lines 105-110: returns
`(parts, bytes_per_chunk)`.  The count branch is
`parts = max(1, number_of_chunks)` and
`bytes_per_chunk = ceil(total / parts)`; the size branch is
`bytes_per_chunk = config.bytes_per_chunk` and
`parts = ceil(total / bytes_per_chunk) or 1` (Python's `or 1` turns a
zero into one).  `max 1 n.toNat` agrees with Python's `max(1, n)` for
every integer `n`.  The `(none, none)` fallback is unreachable:
`postInit` rejects a configuration with neither field set. -/
def GenericBinaryChunker.planParts (cfg : ChunkConfig) (total : Nat) : Nat × Nat :=
  match cfg.number_of_chunks with
  | some n =>
      let p := max 1 n.toNat
      (p, cdiv total p)
  | none =>
      match cfg.bytes_per_chunk with
      | some s =>
          let bpc := s.toNat
          let c := cdiv total bpc
          (if c = 0 then 1 else c, bpc)
      | none => (1, 0)

/-- The read/write loop at main.py lines 112-128 over the remaining
bytes: iteration `i` of `parts` reads `bytes_per_chunk` bytes when
`i < parts` (`f_in.read` returns at most what is left) and reads
`total_size - f_in.tell()` — exactly the remaining bytes — when
`i = parts`. -/
def readChunks (bpc : Nat) : Nat → List Nat → List (List Nat)
  | 0, _ => []
  | 1, rest => [rest]
  | k + 2, rest => rest.take bpc :: readChunks bpc (k + 1) (rest.drop bpc)

/-- `GenericBinaryChunker.split` (main.py lines 97-128) on the source
file's byte content: the list of the chunk files' byte contents, in
index order.  The existence check, directory creation and the `if
data:` guard (which only skips a no-op zero-byte write) do not affect
the produced contents. -/
def GenericBinaryChunker.split (cfg : ChunkConfig) (src : List Nat) : List (List Nat) :=
  let plan := GenericBinaryChunker.planParts cfg src.length
  readChunks plan.2 plan.1 src

/-- A `pathlib.Path`: an absolute flag and the list of name
components.  (Drive/root anchors beyond the leading `/` are not
needed for this program.) -/
structure PyPath where
  isAbs : Bool
  comps : List String
deriving DecidableEq, Repr

/-- `pathlib`'s `/` operator: if the right operand is absolute it
replaces the left operand entirely; otherwise the components are
appended. -/
def PyPath.div (p q : PyPath) : PyPath :=
  if q.isAbs then q else ⟨p.isAbs, p.comps ++ q.comps⟩

/-- `Path.name`: the final component (empty for a bare root). -/
def PyPath.name (p : PyPath) : String :=
  (p.comps.getLast?).getD ""

/-- `Path.parent`: drop the final component. -/
def PyPath.parent (p : PyPath) : PyPath :=
  ⟨p.isAbs, p.comps.dropLast⟩

/-- Index of the last `.` in a filename, `pathlib`'s `name.rfind('.')`
restricted to a found result. -/
def lastDotIdx (cs : List Char) : Option Nat :=
  (List.range cs.length).reverse.find? fun i => decide (cs.get? i = some '.')

/-- `Path.suffix`: the part of the name from its last dot, provided
that dot is neither the first nor the last character (`pathlib`'s
`0 < i < len(name) - 1` rule). -/
def nameSuffix (name : String) : String :=
  let cs := name.toList
  match lastDotIdx cs with
  | some i => if 0 < i ∧ i < cs.length - 1 then String.mk (cs.drop i) else ""
  | none => ""

/-- `Path.stem`: the name with `nameSuffix` removed. -/
def nameStem (name : String) : String :=
  let cs := name.toList
  match lastDotIdx cs with
  | some i => if 0 < i ∧ i < cs.length - 1 then String.mk (cs.take i) else name
  | none => name

/-- `Path.stem` of a path. -/
def PyPath.stem (p : PyPath) : String := nameStem p.name

/-- `Path.with_stem(s)`, which is `with_name(s + suffix)`: the final
component is replaced, every other component — in particular the whole
parent directory — is kept.  (Python raises on a path with no name;
the theorems below only use it on paths with at least one
component.) -/
def PyPath.withStem (p : PyPath) (s : String) : PyPath :=
  ⟨p.isAbs, p.comps.dropLast ++ [s ++ nameSuffix p.name]⟩

/-- Python's `f"{n:02d}"` for a non-negative value: zero-padded to two
digits, wider values rendered unpadded. -/
def pad2 (n : Nat) : String :=
  if n < 10 then "0" ++ toString n else toString n

/-- `FileChunker._make_chunk_name` (main.py lines 85-89).  Note that it
returns `original.with_stem(...)`: a full path that keeps `original`'s
parent directory, not a bare file name. -/
def FileChunker.makeChunkName (original : PyPath) (index totalChunks : Nat) : PyPath :=
  let idx := pad2 index
  let totalStr := if totalChunks ≠ 0 then pad2 totalChunks else "?"
  original.withStem (original.stem ++ "_part_" ++ idx ++ "-of-" ++ totalStr)

/-- The output paths of the binary split loop, in write order:
iteration `i = 1..parts` writes to
`dst_dir / _make_chunk_name(src, i, parts)` (main.py line 115). -/
def GenericBinaryChunker.chunkPaths (src dst : PyPath) (parts : Nat) : List PyPath :=
  (List.range parts).map fun i => dst.div (FileChunker.makeChunkName src (i + 1) parts)

/-- The `while page_idx < total_pages` grouping loop of
`PdfFileChunker.split` (main.py lines 157-171), with explicit fuel;
each iteration takes `min(page_idx + pages_per_chunk, total_pages) -
page_idx` pages.  With `pages_per_chunk ≥ 1` and fuel `≥` the number
of pages — the only way the wrapper below calls it on a non-empty page
list — the fuel never runs out, so this equals the source loop. -/
def pageGroupsGo (ppc : Nat) : Nat → List Nat → List (List Nat)
  | _, [] => []
  | 0, _ :: _ => []
  | fuel + 1, q :: qs => (q :: qs).take ppc :: pageGroupsGo ppc fuel ((q :: qs).drop ppc)

/-- The grouping loop started as the source starts it: `page_idx = 0`,
running until all pages are consumed. -/
def pageGroups (ppc : Nat) (pages : List Nat) : List (List Nat) :=
  pageGroupsGo ppc pages.length pages

/-- `PdfFileChunker.split` (main.py lines 136-176) on the decoded page
list, returning the produced chunks' page lists in index order.  In
the size-based branch the name `n_chunks` used at line 165 is never
assigned, so the first loop iteration raises `NameError`; hence with
at least one page and no `number_of_chunks` the call fails with no
chunk written, and with zero pages the loop body never runs and the
empty list is returned.  With `number_of_chunks = n` set,
`pages_per_chunk = ceil(total_pages / max(1, n))` and the loop
partitions the pages.  (The `(none, none)` configuration is
unreachable past `postInit`.) -/
def PdfFileChunker.split (cfg : ChunkConfig) (pages : List Nat) : Except String (List (List Nat)) :=
  let totalPages := pages.length
  match cfg.number_of_chunks with
  | some n =>
      let nChunks := max 1 n.toNat
      .ok (pageGroups (cdiv totalPages nChunks) pages)
  | none =>
      if totalPages = 0 then .ok [] else
        .error "NameError: name n_chunks is not defined"

/-- `estimate_chunks` (main.py lines 189-198), reduced to the estimated
chunk count it returns (the description string is presentation only).
With a count policy it returns `config.number_of_chunks` itself; with
a size policy it returns `ceil(total_size / bytes_per_chunk)` — with
no minimum-one floor.  The `(none, none)` fallback is unreachable
past `postInit`. -/
def estimate_chunks (total_size : Nat) (cfg : ChunkConfig) : Int :=
  match cfg.number_of_chunks with
  | some n => n
  | none =>
      match cfg.bytes_per_chunk with
      | some s => Int.ofNat (cdiv total_size s.toNat)
      | none => 0

/-! ### Arithmetic facts about the ceiling-division idiom -/

theorem cdiv_zero_left (s : Nat) (hs : 1 ≤ s) : cdiv 0 s = 0 := by
  unfold cdiv
  exact Nat.div_eq_of_lt (by omega)

theorem cdiv_eq_pred_div_succ (t s : Nat) (ht : 1 ≤ t) (hs : 1 ≤ s) :
    cdiv t s = (t - 1) / s + 1 := by
  unfold cdiv
  have h : t + s - 1 = (t - 1) + s := by omega
  rw [h, Nat.add_div_right _ (by omega : 0 < s)]

theorem cdiv_pos (t s : Nat) (ht : 1 ≤ t) (hs : 1 ≤ s) : 1 ≤ cdiv t s := by
  rw [cdiv_eq_pred_div_succ t s ht hs]
  exact Nat.succ_le_succ (Nat.zero_le _)

theorem le_cdiv_mul (t s : Nat) (hs : 1 ≤ s) : t ≤ cdiv t s * s := by
  unfold cdiv
  rw [Nat.mul_comm]
  have hdm := Nat.div_add_mod (t + s - 1) s
  have hlt := Nat.mod_lt (t + s - 1) (by omega : 0 < s)
  omega

theorem cdiv_pred_mul_le (t s : Nat) (hs : 1 ≤ s) : (cdiv t s - 1) * s ≤ t := by
  rcases Nat.eq_zero_or_pos t with rfl | ht
  · rw [cdiv_zero_left s hs]
    simp
  · rw [cdiv_eq_pred_div_succ t s ht hs, Nat.add_sub_cancel]
    have := Nat.div_mul_le_self (t - 1) s
    omega

theorem or_one_eq_max (c : Nat) : (if c = 0 then 1 else c) = max 1 c := by
  rcases c with _ | c
  · rfl
  · rw [if_neg (Nat.succ_ne_zero c)]
    exact (Nat.max_eq_right (by omega)).symm

/-! ### Shape lemmas for the binary read/write loop -/

theorem readChunks_flatten (bpc : Nat) : ∀ (k : Nat) (l : List Nat), 1 ≤ k →
    (readChunks bpc k l).flatten = l
  | 0, _, h => absurd h (by decide)
  | 1, l, _ => by simp [readChunks]
  | k + 2, l, _ => by
      rw [readChunks, List.flatten_cons,
        readChunks_flatten bpc (k + 1) (l.drop bpc) (by omega)]
      exact List.take_append_drop bpc l

theorem readChunks_length (bpc : Nat) : ∀ (k : Nat) (l : List Nat), 1 ≤ k →
    (readChunks bpc k l).length = k
  | 0, _, h => absurd h (by decide)
  | 1, _, _ => rfl
  | k + 2, l, _ => by
      rw [readChunks, List.length_cons,
        readChunks_length bpc (k + 1) (l.drop bpc) (by omega)]

theorem readChunks_nil (bpc : Nat) : ∀ (k : Nat),
    readChunks bpc k [] = List.replicate k []
  | 0 => rfl
  | 1 => rfl
  | k + 2 => by
      rw [readChunks, List.replicate_succ]
      simp [readChunks_nil bpc (k + 1)]

theorem readChunks_ne_nil (bpc : Nat) : ∀ (k : Nat) (l : List Nat), 1 ≤ k →
    readChunks bpc k l ≠ []
  | 0, _, h => absurd h (by decide)
  | 1, l, _ => by simp [readChunks]
  | _ + 2, l, _ => by simp [readChunks]

theorem readChunks_dropLast (bpc : Nat) : ∀ (k : Nat) (l : List Nat),
    (k - 1) * bpc ≤ l.length →
    ∀ c ∈ (readChunks bpc k l).dropLast, c.length = bpc
  | 0, l, _ => by simp [readChunks]
  | 1, l, _ => by simp [readChunks]
  | k + 2, l, h => by
      rw [readChunks, List.dropLast_cons_of_ne_nil
        (readChunks_ne_nil bpc (k + 1) (l.drop bpc) (by omega))]
      have h' : (k + 1) * bpc ≤ l.length := by simpa using h
      intro c hc
      rcases List.mem_cons.mp hc with rfl | hc
      · have hb : bpc ≤ l.length :=
          le_trans (Nat.le_mul_of_pos_left bpc (by omega : 0 < k + 1)) h'
        rw [List.length_take]
        omega
      · refine readChunks_dropLast bpc (k + 1) (l.drop bpc) ?_ c hc
        rw [List.length_drop, Nat.add_sub_cancel]
        rw [Nat.succ_mul] at h'
        omega

theorem readChunks_le (bpc : Nat) : ∀ (k : Nat) (l : List Nat),
    l.length ≤ k * bpc →
    ∀ c ∈ readChunks bpc k l, c.length ≤ bpc
  | 0, l, _ => by simp [readChunks]
  | 1, l, h => by
      simp only [readChunks, List.mem_singleton]
      rintro c rfl
      omega
  | k + 2, l, h => by
      intro c hc
      rw [readChunks] at hc
      rcases List.mem_cons.mp hc with rfl | hc
      · rw [List.length_take]
        omega
      · refine readChunks_le bpc (k + 1) (l.drop bpc) ?_ c hc
        rw [List.length_drop]
        rw [Nat.succ_mul] at h
        omega

theorem planParts_fst_pos (cfg : ChunkConfig) (total : Nat) :
    1 ≤ (GenericBinaryChunker.planParts cfg total).1 := by
  rcases cfg with ⟨bpc, noc⟩
  rcases noc with _ | n
  · rcases bpc with _ | s
    · exact le_refl 1
    · simp only [GenericBinaryChunker.planParts]
      split <;> omega
  · simp only [GenericBinaryChunker.planParts]
    exact Nat.le_max_left 1 _

/-! ### C1 -/

/-- C1: for every valid policy, concatenating the chunk contents
produced by the binary split, in index order, reproduces the original
source byte-for-byte. -/
theorem binary_split_roundtrip (cfg : ChunkConfig) (src : List Nat) (_hv : cfg.Valid) :
    (GenericBinaryChunker.split cfg src).flatten = src := by
  unfold GenericBinaryChunker.split
  exact readChunks_flatten _ _ src (planParts_fst_pos cfg src.length)

/-- Witness for C1 at a concrete valid policy and source. -/
theorem binary_split_roundtrip_witness :
    (⟨some 2048, none⟩ : ChunkConfig).Valid ∧
      (GenericBinaryChunker.split ⟨some 2048, none⟩ [3, 1, 4]).flatten = [3, 1, 4] :=
  ⟨by decide, binary_split_roundtrip ⟨some 2048, none⟩ [3, 1, 4] (by decide)⟩

/-! ### C2 -/

theorem split_bytesize_eq (s : Int) (src : List Nat) :
    GenericBinaryChunker.split ⟨some s, none⟩ src
      = readChunks s.toNat (max 1 (cdiv src.length s.toNat)) src := by
  unfold GenericBinaryChunker.split GenericBinaryChunker.planParts
  simp only
  rw [or_one_eq_max]

/-- C2: with a valid `ByteSize(s)` policy (`s > 1024`) on a `t`-byte
source, the binary split produces `max 1 (ceil(t/s))` chunks whose
sizes sum to exactly `t`; every non-final chunk has size exactly `s`,
every chunk has size at most `s` (so only the final one can be
smaller), and a zero-byte source gives exactly one empty chunk. -/
theorem bytesize_split_shape (s : Int) (src : List Nat) (hs : 1024 < s) :
    (GenericBinaryChunker.split ⟨some s, none⟩ src).length
        = max 1 ((src.length + s.toNat - 1) / s.toNat) ∧
      ((GenericBinaryChunker.split ⟨some s, none⟩ src).map List.length).sum = src.length ∧
      (∀ c ∈ (GenericBinaryChunker.split ⟨some s, none⟩ src).dropLast, c.length = s.toNat) ∧
      (∀ c ∈ GenericBinaryChunker.split ⟨some s, none⟩ src, c.length ≤ s.toNat) ∧
      (src = [] → GenericBinaryChunker.split ⟨some s, none⟩ src = [[]]) := by
  have hs1 : 1 ≤ s.toNat := by omega
  have hk : 1 ≤ max 1 (cdiv src.length s.toNat) := Nat.le_max_left 1 _
  rw [split_bytesize_eq]
  refine ⟨readChunks_length _ _ src hk, ?_, ?_, ?_, ?_⟩
  · rw [← List.length_flatten, readChunks_flatten _ _ src hk]
  · refine readChunks_dropLast _ _ src ?_
    rcases Nat.eq_zero_or_pos src.length with h0 | hpos
    · rw [h0, cdiv_zero_left _ hs1]
      simp
    · rw [Nat.max_eq_right (cdiv_pos _ _ hpos hs1)]
      exact le_trans (cdiv_pred_mul_le src.length s.toNat hs1) (le_refl _)
  · refine readChunks_le _ _ src ?_
    rcases Nat.eq_zero_or_pos src.length with h0 | hpos
    · omega
    · rw [Nat.max_eq_right (cdiv_pos _ _ hpos hs1)]
      exact le_cdiv_mul src.length s.toNat hs1
  · rintro rfl
    rw [List.length_nil, cdiv_zero_left _ hs1]
    rfl

/-- Witness for C2 at `ByteSize(2048)` on a 3-byte source: the split is
`[[7, 7, 7]]` and every chunk is at most 2048 bytes. -/
theorem bytesize_split_shape_witness :
    GenericBinaryChunker.split ⟨some 2048, none⟩ [7, 7, 7] = [[7, 7, 7]] ∧
      (∀ c ∈ GenericBinaryChunker.split ⟨some 2048, none⟩ [7, 7, 7],
        c.length ≤ (2048 : Int).toNat) :=
  ⟨by decide, (bytesize_split_shape 2048 [7, 7, 7] (by decide)).2.2.2.1⟩

/-! ### C3 -/

/-- C3 counterexample: under `PartCount(4)` a 5-byte source is split
into chunks of sizes `[2, 2, 1, 0]`, and the empty final chunk is 2
units away from `ceil(5/4) = 2` — so "every chunk size within 1 unit
of `ceil(t/n)`" is false as stated. -/
theorem partcount_within_one_cex :
    ¬ ∀ c ∈ GenericBinaryChunker.split ⟨none, some 4⟩ [9, 9, 9, 9, 9],
        (5 + 4 - 1) / 4 - 1 ≤ c.length ∧ c.length ≤ (5 + 4 - 1) / 4 + 1 := by
  decide

theorem split_partcount_eq (n : Int) (src : List Nat) (hn : 1 ≤ n) :
    GenericBinaryChunker.split ⟨none, some n⟩ src
      = readChunks (cdiv src.length n.toNat) n.toNat src := by
  unfold GenericBinaryChunker.split GenericBinaryChunker.planParts
  simp only
  rw [Nat.max_eq_right (by omega : 1 ≤ n.toNat)]

/-- C3 amended: with a valid `PartCount(n)` policy (`n ≥ 1`) on a
`t`-byte source, the binary split produces exactly `n` chunks whose
sizes sum to exactly `t`, every chunk's size is at most
`ceil(t/n)` (trailing chunks can be empty, so "within 1 unit of
`ceil(t/n)`" does not hold), and a zero-byte source yields `n` empty
chunks. -/
theorem partcount_split_shape (n : Int) (src : List Nat) (hn : 1 ≤ n) :
    (GenericBinaryChunker.split ⟨none, some n⟩ src).length = n.toNat ∧
      ((GenericBinaryChunker.split ⟨none, some n⟩ src).map List.length).sum = src.length ∧
      (∀ c ∈ GenericBinaryChunker.split ⟨none, some n⟩ src,
        c.length ≤ (src.length + n.toNat - 1) / n.toNat) ∧
      (src = [] → GenericBinaryChunker.split ⟨none, some n⟩ src
        = List.replicate n.toNat []) := by
  have hn1 : 1 ≤ n.toNat := by omega
  rw [split_partcount_eq n src hn]
  refine ⟨readChunks_length _ _ src hn1, ?_, ?_, ?_⟩
  · rw [← List.length_flatten, readChunks_flatten _ _ src hn1]
  · refine readChunks_le _ _ src ?_
    rw [Nat.mul_comm]
    exact le_cdiv_mul src.length n.toNat hn1
  · rintro rfl
    exact readChunks_nil _ _

/-- Witness for C3's amended statement at `PartCount(4)` on a 5-byte
source: chunk contents `[[9, 9], [9, 9], [9], []]` and chunk count 4. -/
theorem partcount_split_shape_witness :
    GenericBinaryChunker.split ⟨none, some 4⟩ [9, 9, 9, 9, 9]
        = [[9, 9], [9, 9], [9], []] ∧
      (GenericBinaryChunker.split ⟨none, some 4⟩ [9, 9, 9, 9, 9]).length
        = (4 : Int).toNat :=
  ⟨by decide, (partcount_split_shape 4 [9, 9, 9, 9, 9] (by decide)).1⟩

/-! ### C4 -/

/-- C4: the claim that every produced chunk file's parent is the given
output directory fails — and the source's own structure (it joins the
name onto `dst_dir` and checks `dst_dir` for writability first) shows
placement in `dst_dir` is the intent.  `_make_chunk_name` returns
`original.with_stem(...)`, a full path keeping the source's parent
directory, and `pathlib`'s `dst_dir / absolutePath` discards
`dst_dir`: splitting `/data/big.bin` into `/out` with 2 parts writes
both chunks under `/data`, not `/out`. -/
theorem chunk_paths_escape_output_dir :
    GenericBinaryChunker.chunkPaths ⟨true, ["data", "big.bin"]⟩ ⟨true, ["out"]⟩ 2 =
        [⟨true, ["data", "big_part_01-of-02.bin"]⟩,
         ⟨true, ["data", "big_part_02-of-02.bin"]⟩] ∧
      ∀ p ∈ GenericBinaryChunker.chunkPaths ⟨true, ["data", "big.bin"]⟩ ⟨true, ["out"]⟩ 2,
        p.parent ≠ (⟨true, ["out"]⟩ : PyPath) := by
  decide

/-! ### C5 -/

/-- C5 counterexample: for a zero-byte source under `ByteSize(2048)`
the estimate is 0 chunks while the binary split actually produces 1
chunk, so the estimate does not always match the real chunk count for
size-based policies. -/
theorem estimate_zero_size_cex :
    estimate_chunks 0 ⟨some 2048, none⟩ = 0 ∧
      (GenericBinaryChunker.split ⟨some 2048, none⟩ []).length = 1 ∧
      estimate_chunks 0 ⟨some 2048, none⟩
        ≠ ((GenericBinaryChunker.split ⟨some 2048, none⟩ []).length : Int) := by
  decide

theorem valid_facts (cfg : ChunkConfig) (hv : cfg.Valid) :
    ¬(cfg.bytes_per_chunk = none ∧ cfg.number_of_chunks = none) ∧
      (∀ b, cfg.bytes_per_chunk = some b → 1024 < b) ∧
      (∀ n, cfg.number_of_chunks = some n → 1 ≤ n) := by
  rcases cfg with ⟨bpc, noc⟩
  unfold ChunkConfig.Valid ChunkConfig.postInit at hv
  refine ⟨?_, ?_, ?_⟩
  · rintro ⟨rfl, rfl⟩
    simp [Except.toOption] at hv
  · rintro b rfl
    by_contra hb
    rw [if_neg (by simp)] at hv
    rw [if_pos (by simp [sizeTooSmall]; omega)] at hv
    simp [Except.toOption] at hv
  · rintro n rfl
    by_contra hn
    by_cases h1 : bpc = none ∧ (some n : Option Int) = none
    · rw [if_pos h1] at hv
      simp [Except.toOption] at hv
    · rw [if_neg h1] at hv
      by_cases h2 : sizeTooSmall bpc
      · rw [if_pos h2] at hv
        simp [Except.toOption] at hv
      · rw [if_neg h2, if_pos (by simp [countTooSmall]; omega)] at hv
        simp [Except.toOption] at hv

/-- C5 amended: the estimate equals the binary split's real chunk
count for every valid count-based policy, and for every valid
size-based policy on a non-empty source; for a zero-byte source under
a size-based policy the estimate is `ceil(0/s) = 0` while the split
produces one (empty) chunk. -/
theorem estimate_matches_split (cfg : ChunkConfig) (src : List Nat) (hv : cfg.Valid)
    (h : cfg.number_of_chunks ≠ none ∨ src ≠ []) :
    estimate_chunks src.length cfg
      = ((GenericBinaryChunker.split cfg src).length : Int) := by
  obtain ⟨hne, hsize, hcount⟩ := valid_facts cfg hv
  rcases cfg with ⟨bpc, noc⟩
  rcases noc with _ | n
  · rcases bpc with _ | s
    · exact absurd ⟨rfl, rfl⟩ hne
    · have hs : 1024 < s := hsize s rfl
      have hsrc : src ≠ [] := by
        rcases h with h | h
        · exact absurd rfl h
        · exact h
      have hpos : 0 < src.length := List.length_pos.mpr hsrc
      rw [split_bytesize_eq,
        readChunks_length _ _ src (Nat.le_max_left 1 _),
        Nat.max_eq_right (cdiv_pos _ _ hpos (by omega))]
      rfl
  · have hn : 1 ≤ n := hcount n rfl
    have hsplit : GenericBinaryChunker.split ⟨bpc, some n⟩ src
        = readChunks (cdiv src.length n.toNat) n.toNat src := by
      unfold GenericBinaryChunker.split GenericBinaryChunker.planParts
      simp only
      rw [Nat.max_eq_right (by omega : 1 ≤ n.toNat)]
    rw [hsplit, readChunks_length _ _ src (by omega : 1 ≤ n.toNat)]
    show n = (n.toNat : Int)
    omega

/-- Witness for C5's amended statement at `PartCount(3)` on a 5-byte
source: the estimate and the split's chunk count are both 3. -/
theorem estimate_matches_split_witness :
    (⟨none, some 3⟩ : ChunkConfig).Valid ∧
      estimate_chunks ([1, 2, 3, 4, 5] : List Nat).length ⟨none, some 3⟩
        = ((GenericBinaryChunker.split ⟨none, some 3⟩ [1, 2, 3, 4, 5]).length : Int) :=
  ⟨by decide, estimate_matches_split ⟨none, some 3⟩ [1, 2, 3, 4, 5] (by decide)
    (Or.inl (by decide))⟩

/-! ### C6 -/

/-- C6 counterexample: a configuration with both `bytes_per_chunk` and
`number_of_chunks` set (both in range) is accepted by
`__post_init__`, so "constructing with both size and count set fails
validation" is false. -/
theorem both_fields_accepted_cex :
    ChunkConfig.postInit (some 2048) (some 2) = .ok ⟨some 2048, some 2⟩ ∧
      (⟨some 2048, some 2⟩ : ChunkConfig).Valid :=
  ⟨rfl, by decide⟩

/-- C6 amended: construction fails exactly when neither field is set,
or a set size is ≤ 1024, or a set count is < 1; in every other case —
including both fields set — it succeeds and the policy keeps both
given fields.  So every policy that exists has at least one field
set, any set size is > 1024 and any set count is ≥ 1, but "exactly
one of size or count is set" does not hold. -/
theorem postInit_validation (bpc noc : Option Int) :
    (ChunkConfig.postInit bpc noc).toOption =
      if (bpc = none ∧ noc = none) ∨ sizeTooSmall bpc ∨ countTooSmall noc
      then none else some ⟨bpc, noc⟩ := by
  unfold ChunkConfig.postInit
  by_cases h1 : bpc = none ∧ noc = none
  · simp [h1, Except.toOption]
  · by_cases h2 : sizeTooSmall bpc <;> by_cases h3 : countTooSmall noc <;>
      simp [h1, h2, h3, Except.toOption]

/-! ### C7 -/

/-- C7 counterexample: with the display total unknown (0), the
rendered name for index 1 of `file.pdf` is
`file_part_01-of-?.pdf` — a single `?`, not the `??` placeholder the
claim states. -/
theorem unknown_total_single_qmark_cex :
    FileChunker.makeChunkName ⟨false, ["file.pdf"]⟩ 1 0
        = ⟨false, ["file_part_01-of-?.pdf"]⟩ ∧
      (⟨false, ["file_part_01-of-?.pdf"]⟩ : PyPath)
        ≠ ⟨false, ["file_part_01-of-??.pdf"]⟩ := by
  decide

/-- C7 amended: when the total chunk count for display is unknown (0),
the chunk name renders the total field as the single-character
placeholder `?`, keeping the zero-padded index and appending the
original extension at the end of the name. -/
theorem makeChunkName_unknown_total (orig : PyPath) (i : Nat) (_h : orig.comps ≠ []) :
    (FileChunker.makeChunkName orig i 0).name
        = nameStem orig.name ++ "_part_" ++ pad2 i ++ "-of-" ++ "?"
            ++ nameSuffix orig.name ∧
      (FileChunker.makeChunkName orig i 0).isAbs = orig.isAbs := by
  unfold FileChunker.makeChunkName PyPath.withStem PyPath.stem
  constructor
  · show PyPath.name ⟨orig.isAbs, _⟩ = _
    unfold PyPath.name
    rw [List.getLast?_concat]
    rfl
  · rfl

/-- Witness for C7's amended statement at `file.pdf`, index 1. -/
theorem makeChunkName_unknown_total_witness :
    ((⟨false, ["file.pdf"]⟩ : PyPath).comps ≠ []) ∧
      (FileChunker.makeChunkName ⟨false, ["file.pdf"]⟩ 1 0).name
        = nameStem "file.pdf" ++ "_part_" ++ pad2 1 ++ "-of-" ++ "?"
            ++ nameSuffix "file.pdf" :=
  ⟨by decide, (makeChunkName_unknown_total ⟨false, ["file.pdf"]⟩ 1 (by decide)).1⟩

/-! ### Shape lemmas for the page-grouping loop -/

theorem pageGroupsGo_flatten (ppc : Nat) (hppc : 1 ≤ ppc) :
    ∀ (fuel : Nat) (pages : List Nat), pages.length ≤ fuel →
      (pageGroupsGo ppc fuel pages).flatten = pages
  | fuel, [], _ => by cases fuel <;> simp [pageGroupsGo]
  | 0, q :: qs, h => by simp at h
  | fuel + 1, q :: qs, h => by
      rw [pageGroupsGo, List.flatten_cons,
        pageGroupsGo_flatten ppc hppc fuel ((q :: qs).drop ppc) (by
          rw [List.length_drop]
          simp only [List.length_cons] at h ⊢
          omega)]
      exact List.take_append_drop ppc (q :: qs)

theorem pageGroupsGo_le (ppc : Nat) : ∀ (fuel : Nat) (pages : List Nat),
    ∀ c ∈ pageGroupsGo ppc fuel pages, c.length ≤ ppc
  | fuel, [] => by cases fuel <;> simp [pageGroupsGo]
  | 0, q :: qs => by simp [pageGroupsGo]
  | fuel + 1, q :: qs => by
      intro c hc
      rw [pageGroupsGo] at hc
      rcases List.mem_cons.mp hc with rfl | hc
      · rw [List.length_take]
        exact Nat.min_le_left ppc _
      · exact pageGroupsGo_le ppc fuel ((q :: qs).drop ppc) c hc

theorem pageGroupsGo_dropLast (ppc : Nat) (hppc : 1 ≤ ppc) :
    ∀ (fuel : Nat) (pages : List Nat), pages.length ≤ fuel →
      ∀ c ∈ (pageGroupsGo ppc fuel pages).dropLast, c.length = ppc
  | fuel, [], _ => by cases fuel <;> simp [pageGroupsGo]
  | 0, q :: qs, h => by simp at h
  | fuel + 1, q :: qs, h => by
      rw [pageGroupsGo]
      by_cases hd : (q :: qs).drop ppc = []
      · rw [hd]
        cases fuel <;> simp [pageGroupsGo]
      · have hlen : ppc < qs.length + 1 := by
          rcases Nat.lt_or_ge ppc (q :: qs).length with h' | h'
          · simpa using h'
          · exact absurd (List.drop_eq_nil_iff.mpr h') hd
        have hfuel : 1 ≤ fuel := by
          simp only [List.length_cons] at h
          omega
        have hne : pageGroupsGo ppc fuel ((q :: qs).drop ppc) ≠ [] := by
          rcases fuel with _ | f
          · omega
          · rcases he : (q :: qs).drop ppc with _ | ⟨r, rs⟩
            · exact absurd he hd
            · rw [pageGroupsGo]
              exact List.cons_ne_nil _ _
        rw [List.dropLast_cons_of_ne_nil hne]
        intro c hc
        rcases List.mem_cons.mp hc with rfl | hc
        · rw [List.length_take]
          simp only [List.length_cons]
          omega
        · refine pageGroupsGo_dropLast ppc hppc fuel ((q :: qs).drop ppc) ?_ c hc
          rw [List.length_drop]
          simp only [List.length_cons] at h ⊢
          omega

/-! ### C8 -/

/-- C8: under `PartCount(n)` (`n ≥ 1`) on a source with at least one
page, the page split succeeds and groups the pages into contiguous
runs: every non-final run has exactly `ceil(t/n)` pages, every run has
at most `ceil(t/n)` pages (only the final one can be smaller), and
concatenating the runs in index order reproduces the original page
sequence exactly; in particular 10 pages under `PartCount(3)` give the
page groups `[[0..3], [4..7], [8, 9]]` of sizes `[4, 4, 2]`. -/
theorem pdf_partcount_split (n : Int) (pages : List Nat) (hn : 1 ≤ n)
    (hp : pages ≠ []) :
    (∃ groups, PdfFileChunker.split ⟨none, some n⟩ pages = .ok groups ∧
      groups.flatten = pages ∧
      (∀ c ∈ groups.dropLast, c.length = (pages.length + n.toNat - 1) / n.toNat) ∧
      (∀ c ∈ groups, c.length ≤ (pages.length + n.toNat - 1) / n.toNat)) ∧
    PdfFileChunker.split ⟨none, some 3⟩ (List.range 10)
      = .ok [[0, 1, 2, 3], [4, 5, 6, 7], [8, 9]] := by
  have hn1 : 1 ≤ n.toNat := by omega
  have hpos : 0 < pages.length := List.length_pos.mpr hp
  have hppc : 1 ≤ cdiv pages.length n.toNat := cdiv_pos _ _ hpos hn1
  refine ⟨⟨pageGroups (cdiv pages.length n.toNat) pages, ?_, ?_, ?_, ?_⟩, rfl⟩
  · unfold PdfFileChunker.split
    simp only
    rw [Nat.max_eq_right hn1]
  · exact pageGroupsGo_flatten _ hppc pages.length pages (le_refl _)
  · exact pageGroupsGo_dropLast _ hppc pages.length pages (le_refl _)
  · exact pageGroupsGo_le _ pages.length pages

/-- Witness for C8 at `PartCount(3)` on a 10-page source, with the
`[4, 4, 2]` grouping checked concretely. -/
theorem pdf_partcount_split_witness :
    (∃ groups, PdfFileChunker.split ⟨none, some 3⟩ (List.range 10) = .ok groups ∧
      groups.flatten = List.range 10) ∧
    (pageGroups (cdiv 10 3) (List.range 10)).map List.length = [4, 4, 2] := by
  obtain ⟨⟨g, h1, h2, _⟩, _⟩ :=
    pdf_partcount_split 3 (List.range 10) (by decide) (by decide)
  exact ⟨⟨g, h1, h2⟩, by decide⟩

/-! ### C9 -/

/-- C9: for every valid policy, splitting a zero-page source produces
zero chunks and writes no files — the one case without the
minimum-one-chunk floor.  (Under a count policy the grouping loop body
never runs because `page_idx < total_pages` is false at once; under a
size policy the loop body — which would raise `NameError` — never runs
either, so the empty manifest is returned.) -/
theorem pdf_zero_pages (cfg : ChunkConfig) (_hv : cfg.Valid) :
    PdfFileChunker.split cfg [] = .ok ([] : List (List Nat)) := by
  rcases cfg with ⟨bpc, noc⟩
  rcases noc with _ | n
  · rfl
  · rfl

/-- Witness for C9 at the valid policy `PartCount(3)`. -/
theorem pdf_zero_pages_witness :
    (⟨none, some 3⟩ : ChunkConfig).Valid ∧
      PdfFileChunker.split ⟨none, some 3⟩ [] = .ok ([] : List (List Nat)) :=
  ⟨by decide, pdf_zero_pages ⟨none, some 3⟩ (by decide)⟩

/-! ### C10 -/

/-- C10: a configuration with both fields set (each in range) is
accepted, and the binary splitter, the page splitter and the estimator
all follow `number_of_chunks`, ignoring `bytes_per_chunk`: each
behaves exactly as with only the count set. -/
theorem both_fields_use_count (b n : Int) (hb : 1024 < b) (hn : 1 ≤ n)
    (src pages : List Nat) (t : Nat) :
    ChunkConfig.postInit (some b) (some n) = .ok ⟨some b, some n⟩ ∧
      GenericBinaryChunker.split ⟨some b, some n⟩ src
        = GenericBinaryChunker.split ⟨none, some n⟩ src ∧
      PdfFileChunker.split ⟨some b, some n⟩ pages
        = PdfFileChunker.split ⟨none, some n⟩ pages ∧
      estimate_chunks t ⟨some b, some n⟩ = estimate_chunks t ⟨none, some n⟩ := by
  refine ⟨?_, rfl, rfl, rfl⟩
  unfold ChunkConfig.postInit
  rw [if_neg (by simp)]
  rw [if_neg (by simp [sizeTooSmall]; omega)]
  rw [if_neg (by simp [countTooSmall]; omega)]

/-- Witness for C10 with `bytes_per_chunk = 2048` and
`number_of_chunks = 2` on a 3-byte source. -/
theorem both_fields_use_count_witness :
    ChunkConfig.postInit (some 2048) (some 2) = .ok ⟨some 2048, some 2⟩ ∧
      GenericBinaryChunker.split ⟨some 2048, some 2⟩ [5, 6, 7]
        = GenericBinaryChunker.split ⟨none, some 2⟩ [5, 6, 7] :=
  ⟨(both_fields_use_count 2048 2 (by decide) (by decide) [5, 6, 7] [1] 7).1,
   (both_fields_use_count 2048 2 (by decide) (by decide) [5, 6, 7] [1] 7).2.1⟩

end FileChunkerApp
